import Mathlib

/-!
Verification of the autoevals scoring library (shallow embedding).

Scores are embedded as exact rationals (`ℚ`); Python float arithmetic on the
small values exercised here is exact, so the idealization is faithful.
Fallible Python code (raising `ValueError`, `ImportError`, `AssertionError`)
is embedded as `Except String`.

Embedded components, each translated from its source file:
  * `Score` and its validating constructor  (autoevals/score.py)
  * `NumericDiff`                           (autoevals/number.py)
  * `LevenshteinScorer`                     (autoevals/string.py, class Levenshtein)
  * `ExactMatch`                            (autoevals/value.py)
  * `JSONDiff.json_diff`                    (autoevals/json.py)
  * `ListContains`                          (autoevals/list.py)
-/

namespace Autoevals

/-! ### Score (autoevals/score.py)

The source `Score` dataclass carries `name`, `score`, `metadata` and a
deprecated `error` field.  Only `name` and `score` participate in the
properties below; `metadata` is a diagnostic payload and is omitted. -/

structure Score where
  name : String
  score : Option ℚ
  deriving Repr, DecidableEq

/-- Models constructing a `Score`, including the `__post_init__` check:
`if self.score is not None and (self.score < 0 or self.score > 1): raise ValueError(...)`.
A raised `ValueError` is embedded as `Except.error`. -/
def Score.make (name : String) (score : Option ℚ) : Except String Score :=
  match score with
  | some x =>
    if x < 0 ∨ 1 < x then .error "score must be between 0 and 1"
    else .ok ⟨name, some x⟩
  | none => .ok ⟨name, none⟩

/-! ### NumericDiff (autoevals/number.py) -/

/-- The score computed by `NumericDiff._run_eval_sync`:
`1` when both are `0`, else `1 - abs(expected - output) / (abs(expected) + abs(output))`. -/
def NumericDiff.score (output expected : ℚ) : ℚ :=
  if expected = 0 ∧ output = 0 then 1
  else 1 - |expected - output| / (|expected| + |output|)

/-- `NumericDiff._run_eval_sync`: raises `ValueError` when `expected` is `None`,
otherwise builds a validated `Score`. -/
def NumericDiff.run (output : ℚ) (expected : Option ℚ) : Except String Score :=
  match expected with
  | none => .error "NumericDiff requires an expected value"
  | some e => Score.make "NumericDiff" (some (NumericDiff.score output e))

/-! ### Levenshtein string scorer (autoevals/string.py)

The external `polyleven.levenshtein` dependency computes the standard
(unit-cost) Levenshtein edit distance; it is modelled by Mathlib
`levenshtein` with `Levenshtein.defaultCost`.  The source class is named
`Levenshtein` with the alias `LevenshteinScorer`; the alias is used here to
avoid clashing with the Mathlib namespace of the same name. -/

/-- The score computed by `Levenshtein._run_eval_sync` on two strings:
`1 - distance / max_len` when `max_len > 0`, else `1`. -/
def LevenshteinScorer.score (output expected : String) : ℚ :=
  let maxLen := max output.length expected.length
  if 0 < maxLen then
    1 - ((levenshtein Levenshtein.defaultCost output.toList expected.toList : ℕ) : ℚ) / (maxLen : ℚ)
  else 1

/-! ### ExactMatch (autoevals/value.py)

`ExactMatch._run_eval_sync` normalizes both values to strings with
`normalize_value` (JSON-aware serialization) and scores `1` on string
equality, `0` otherwise.  The normalization function is abstracted as a
parameter `norm`; for plain strings that do not parse as JSON objects or
arrays, `normalize_value` is `str(value)`, i.e. the identity. -/

/-- The score computed by `ExactMatch._run_eval_sync`, parametrized by the
normalization `norm` (models `normalize_value` with the `maybe_object` flag
determined by the inputs). -/
def ExactMatch.score {α : Type} (norm : α → String) (output expected : α) : ℚ :=
  if norm output = norm expected then 1 else 0

/-! ### JSON values and JSONDiff (autoevals/json.py)

`JsonVal` is the tagged union of JSON-compatible Python values reaching
`json_diff` after the `preserve_strings=False` preprocessing (which replaces
a string that parses as a JSON object or array by its parse, and is the
identity on every other value; `JsonVal.str` therefore stands for a string
that is not a JSON object or array).  A Python `None` dict entry and a
missing key are both Python `None` in `o.get(k)`, represented by
`JsonVal.null`. -/

inductive JsonVal where
  | null : JsonVal
  | num : ℚ → JsonVal
  | str : String → JsonVal
  | arr : List JsonVal → JsonVal
  | obj : List (String × JsonVal) → JsonVal

/-- Insertion of a key/serialized-value pair keeping keys sorted, used to
model `sort_keys=True`. -/
def insertByKey (p : String × String) : List (String × String) → List (String × String)
  | [] => [p]
  | q :: qs => if p.1 ≤ q.1 then p :: q :: qs else q :: insertByKey p qs

/-- Sorting of key/serialized-value pairs by key, used to model
`sort_keys=True`. -/
def sortByKey : List (String × String) → List (String × String)
  | [] => []
  | p :: ps => insertByKey p (sortByKey ps)

mutual
/-- Models `json.dumps(value, separators=(",", ":"), sort_keys=True)`, the
canonicalization used by the `json_diff` fallback branch: compact separators
and keys in sorted order.  String escaping and Python float repr are not
reproduced (the properties below only serialize values without special
characters, and integers, whose repr agrees). -/
def JsonVal.dumps : JsonVal → String
  | .null => "null"
  | .num q => if q.den = 1 then toString q.num else toString q
  | .str s => "\"" ++ s ++ "\""
  | .arr xs => "[" ++ String.intercalate "," (dumpsList xs) ++ "]"
  | .obj fs =>
    "\x7b" ++
      String.intercalate ","
        ((sortByKey (dumpsFields fs)).map (fun p => "\"" ++ p.1 ++ "\":" ++ p.2)) ++
      "\x7d"

/-- Serializes each element of a JSON array (helper for `JsonVal.dumps`). -/
def dumpsList : List JsonVal → List String
  | [] => []
  | x :: xs => x.dumps :: dumpsList xs

/-- Serializes each field value of a JSON object, keeping its key
(helper for `JsonVal.dumps`); sorting the serialized pairs by key afterwards
agrees with `sort_keys=True` because each dumped field is independent of
field order. -/
def dumpsFields : List (String × JsonVal) → List (String × String)
  | [] => []
  | (k, v) :: fs => (k, v.dumps) :: dumpsFields fs
end

/-- Models Python `o.get(k)` on a dict: the value at `k`, or `None` when the
key is missing. -/
def getKey (fs : List (String × JsonVal)) (k : String) : JsonVal :=
  (fs.lookup k).getD .null

/-- Models `set(o1.keys()).union(set(o2.keys()))`; the iteration order of the
Python set is unspecified, and every property proved below is invariant under
it because the dict score averages the per-key scores. -/
def unionKeys (f1 f2 : List (String × JsonVal)) : List String :=
  (f1.map Prod.fst ++ f2.map Prod.fst).eraseDups

/-- Models `JSONDiff.json_diff` with the default sub-scorers
(`Levenshtein` for strings, `NumericDiff` for numbers), which always return
numeric scores, so the source filter dropping `None` child scores drops
nothing.  Recursion is by explicit fuel; `none` marks only fuel exhaustion
(unreachable for any fuel exceeding the nesting depth) and is propagated. -/
def JSONDiff.json_diff : ℕ → JsonVal → JsonVal → Option ℚ
  | 0, _, _ => none
  | fuel + 1, o1, o2 =>
    match o1, o2 with
    | .obj f1, .obj f2 =>
      if f1.length = 0 ∧ f2.length = 0 then some 1
      else
        let scores := (unionKeys f1 f2).map
          (fun k => JSONDiff.json_diff fuel (getKey f1 k) (getKey f2 k))
        if scores.all Option.isSome then
          some ((scores.filterMap id).sum / ((scores.filterMap id).length : ℚ))
        else none
    | .arr l1, .arr l2 =>
      if l1.length = 0 ∧ l2.length = 0 then some 1
      else
        let scores := (l1.zip l2).map (fun p => JSONDiff.json_diff fuel p.1 p.2)
        if scores.all Option.isSome then
          some ((scores.filterMap id).sum / (max l1.length l2.length : ℚ))
        else none
    | .str s1, .str s2 => some (LevenshteinScorer.score s1 s2)
    | .num q1, .num q2 => some (NumericDiff.score q1 q2)
    | .null, .null => some 1
    | .null, _ => some 0
    | _, .null => some 0
    | o1, o2 => some (LevenshteinScorer.score o1.dumps o2.dumps)

/-- `JSONDiff._run_eval_sync`: wraps the diff value in a validated `Score`.
The `none` case marks only embedding fuel exhaustion. -/
def JSONDiff.run (fuel : ℕ) (output expected : JsonVal) : Except String Score :=
  match JSONDiff.json_diff fuel output expected with
  | some s => Score.make "JSONDiff" (some s)
  | none => .error "out of fuel"

/-! ### The assignment solver (external dependency of autoevals/list.py)

`scipy.optimize.linear_sum_assignment` receives the cost matrix and returns
an optimal assignment: a matching of size `min(rows, cols)` that uses each
row and each column at most once and minimizes the total cost; which optimal
matching is returned among ties is unspecified, and nothing below depends on
the choice. -/

/-- Entry `p` of a matrix given as a list of rows (out-of-range reads default
to `0`; every use below is in range). -/
def entryAt (M : List (List ℚ)) (p : ℕ × ℕ) : ℚ :=
  (M.getD p.1 []).getD p.2 0

/-- Total weight of a set of matrix positions. -/
def matchingSum (M : List (List ℚ)) (ps : List (ℕ × ℕ)) : ℚ :=
  (ps.map (entryAt M)).sum

/-- All matchings of size `min m n` between rows `0..m-1` and columns
`0..n-1`: subsequences of the full grid using each row and each column at
most once. -/
def completeMatchings (m n : ℕ) : List (List (ℕ × ℕ)) :=
  (List.sublistsLen (min m n) (List.range m ×ˢ List.range n)).filter
    (fun ps => decide ((ps.map Prod.fst).Nodup ∧ (ps.map Prod.snd).Nodup))

/-- An element of smallest `f`-value among `a` and the list elements. -/
def minBy {α : Type} (f : α → ℚ) (a : α) : List α → α
  | [] => a
  | b :: rest => if f b < f a then minBy f b rest else minBy f a rest

/-- Models `scipy.optimize.linear_sum_assignment(cost)`: an optimal complete
matching for the cost matrix, minimizing total cost.  The row and column
counts are read off the matrix as in scipy (rows = outer length, columns =
row length). -/
def linear_sum_assignment (cost : List (List ℚ)) : List (ℕ × ℕ) :=
  match completeMatchings cost.length (cost.headD []).length with
  | [] => []
  | c :: cs => minBy (matchingSum cost) c cs

/-! ### ListContains (autoevals/list.py) -/

/-- Negation of every matrix entry; models `distances = -np.array(similarities)`. -/
def negMatrix (M : List (List ℚ)) : List (List ℚ) :=
  M.map (fun row => row.map (fun x => -x))

/-- The stderr message printed when the scipy import fails (the apostrophes
around the pip target in the source message are not reproduced). -/
def scipyHint : String :=
  "ListContains requires the scipy extension, which you can install with pip install autoevals[scipy]"

/-- Models `ListContains._compute_score`.  `scipyAvailable` models whether
`import scipy.optimize` succeeds; on failure the source prints `scipyHint`
and re-raises the `ImportError`, embedded as `Except.error scipyHint`.
`d or 0` on a float-or-None similarity yields `0` for `None` (and maps the
float `0.0` to `0`, numerically the identity), i.e. `Option.getD 0`.
The source `assert len(lowest_distances) <= denominator` is embedded as a
guard whose failure is an error. -/
def ListContains.compute_score {α : Type} (scipyAvailable : Bool)
    (allow_extra_entities : Bool) (outputs expecteds : List α)
    (similarities : List (List (Option ℚ))) : Except String Score :=
  if outputs.length = 0 ∧ expecteds.length = 0 then
    Score.make "ListContains" (some 1)
  else if outputs.length = 0 ∨ expecteds.length = 0 then
    Score.make "ListContains" (some 0)
  else if scipyAvailable = false then
    .error scipyHint
  else
    let sims := similarities.map (fun row => row.map (fun d => d.getD 0))
    let distances := negMatrix sims
    let asn := linear_sum_assignment distances
    let lowest_distances := asn.map (entryAt distances)
    let denominator : ℕ :=
      if allow_extra_entities = false then max outputs.length expecteds.length
      else expecteds.length
    if asn.length ≤ denominator then
      Score.make "ListContains"
        (some (min (max (((lowest_distances.map (fun x => -x)).sum) / (denominator : ℚ)) 0) 1))
    else .error "assertion failed: there should be at most as many pairs as there are rows"

/-- Models `ListContains._run_eval_sync`: raises when `expected` is `None`,
otherwise builds the pairwise similarity grid
`[[pairwise_scorer(output_item, expected_item).score for expected_item in expected] for output_item in output]`
and calls `_compute_score`.  `pairwise o e` models
`pairwise_scorer._run_eval_sync(o, e).score`. -/
def ListContains.run {α : Type} (scipyAvailable allow_extra_entities : Bool)
    (pairwise : α → α → Option ℚ) (output : List α) (expected : Option (List α)) :
    Except String Score :=
  match expected with
  | none => .error "ListContains requires an expected value"
  | some exp =>
    ListContains.compute_score scipyAvailable allow_extra_entities output exp
      (output.map (fun o => exp.map (fun e => pairwise o e)))

/-- The similarity matrix the engine builds on a call with nonempty lists:
entry `(i, j)` is the pairwise score of `(output[i], expected[j])` with a
`None` score replaced by `0`. -/
def ListContains.simMatrix {α : Type} (pairwise : α → α → Option ℚ)
    (output expected : List α) : List (List ℚ) :=
  output.map (fun o => expected.map (fun e => (pairwise o e).getD 0))

/-- The assignment the engine obtains from the solver on a call with
nonempty lists. -/
def ListContains.assignment {α : Type} (pairwise : α → α → Option ℚ)
    (output expected : List α) : List (ℕ × ℕ) :=
  linear_sum_assignment (negMatrix (ListContains.simMatrix pairwise output expected))

/-- Clamping to the unit interval, as written in the source:
`min(max(x, 0), 1)`. -/
def clamp01 (x : ℚ) : ℚ := min (max x 0) 1

/-- A one-to-one pairing between row indices `< m` and column indices `< n`:
each row and each column occurs in at most one pair. -/
def IsPairing (m n : ℕ) (ps : List (ℕ × ℕ)) : Prop :=
  (∀ p ∈ ps, p.1 < m ∧ p.2 < n) ∧ (ps.map Prod.fst).Nodup ∧ (ps.map Prod.snd).Nodup

/-! ### Claim C3, spec-described variant

Claim C3 asserts that every pairwise similarity is clamped to `[0, 1]` when
entered into the matrix, before the assignment is solved.  The following
definitions model that described behavior, to be compared with the source
behavior `ListContains.run`. -/

/-- The similarity matrix as claim C3 describes it: every entry clamped to
`[0, 1]` on input. -/
def ListContains.simMatrixClamped {α : Type} (pairwise : α → α → Option ℚ)
    (output expected : List α) : List (List ℚ) :=
  output.map (fun o => expected.map (fun e => clamp01 ((pairwise o e).getD 0)))

/-- The list-matching evaluation as claim C3 describes it: identical to the
source aggregation, but solving the assignment over the clamped matrix. -/
def ListContains.runClamped {α : Type} (scipyAvailable allow_extra_entities : Bool)
    (pairwise : α → α → Option ℚ) (output expected : List α) : Except String Score :=
  if output.length = 0 ∧ expected.length = 0 then
    Score.make "ListContains" (some 1)
  else if output.length = 0 ∨ expected.length = 0 then
    Score.make "ListContains" (some 0)
  else if scipyAvailable = false then
    .error scipyHint
  else
    let sims := ListContains.simMatrixClamped pairwise output expected
    let distances := negMatrix sims
    let asn := linear_sum_assignment distances
    let denominator : ℕ :=
      if allow_extra_entities = false then max output.length expected.length
      else expected.length
    Score.make "ListContains"
      (some (clamp01 (((asn.map (entryAt distances)).map (fun x => -x)).sum / (denominator : ℚ))))

/-- The buggy pairwise scorer used to separate the source behavior from the
claim C3 description: it reports similarity `3/2` for the pair
`("a", "x")` and `0` for every other pair. -/
def cexPairwise : String → String → Option ℚ :=
  fun o e => if o = "a" ∧ e = "x" then some (3 / 2) else some 0

/-! ### Solver lemmas -/

theorem minBy_mem {α : Type} {f : α → ℚ} :
    ∀ (l : List α) (a : α), minBy f a l ∈ a :: l := by
  intro l
  induction l with
  | nil => intro a; simp [minBy]
  | cons b rest ih =>
    intro a
    rw [minBy]
    by_cases hc : f b < f a
    · rw [if_pos hc]
      rcases List.mem_cons.1 (ih b) with h | h
      · simp [h]
      · simp [List.mem_cons_of_mem, h]
    · rw [if_neg hc]
      rcases List.mem_cons.1 (ih a) with h | h
      · simp [h]
      · simp [List.mem_cons_of_mem, h]

theorem minBy_le {α : Type} {f : α → ℚ} :
    ∀ (l : List α) (a b : α), b ∈ a :: l → f (minBy f a l) ≤ f b := by
  intro l
  induction l with
  | nil =>
    intro a b hb
    simp at hb
    subst hb
    simp [minBy]
  | cons c rest ih =>
    intro a b hb
    rw [minBy]
    by_cases hc : f c < f a
    · rw [if_pos hc]
      rcases List.mem_cons.1 hb with h | h
      · rw [h]
        exact le_of_lt (lt_of_le_of_lt (ih c c (List.mem_cons_self c rest)) hc)
      · exact ih c b h
    · rw [if_neg hc]
      rcases List.mem_cons.1 hb with h | h
      · rw [h]
        exact ih a a (List.mem_cons_self a rest)
      · rcases List.mem_cons.1 h with h' | h'
        · rw [h']
          exact le_trans (ih a a (List.mem_cons_self a rest)) (not_lt.1 hc)
        · exact ih a b (List.mem_cons_of_mem a h')

theorem mem_completeMatchings {m n : ℕ} {qs : List (ℕ × ℕ)} :
    qs ∈ completeMatchings m n ↔
      List.Sublist qs (List.range m ×ˢ List.range n) ∧ qs.length = min m n ∧
        (qs.map Prod.fst).Nodup ∧ (qs.map Prod.snd).Nodup := by
  simp only [completeMatchings, List.mem_filter, List.mem_sublistsLen,
    decide_eq_true_eq]
  tauto

theorem isPairing_of_mem_completeMatchings {m n : ℕ} {qs : List (ℕ × ℕ)}
    (h : qs ∈ completeMatchings m n) : IsPairing m n qs := by
  rcases mem_completeMatchings.1 h with ⟨hsl, _, hf, hs⟩
  refine ⟨fun p hp => ?_, hf, hs⟩
  have hmem := hsl.subset hp
  rcases p with ⟨r, c⟩
  rw [List.mem_product] at hmem
  exact ⟨List.mem_range.1 hmem.1, List.mem_range.1 hmem.2⟩

theorem length_of_mem_completeMatchings {m n : ℕ} {qs : List (ℕ × ℕ)}
    (h : qs ∈ completeMatchings m n) : qs.length = min m n :=
  (mem_completeMatchings.1 h).2.1

theorem IsPairing.nodup {m n : ℕ} {ps : List (ℕ × ℕ)} (h : IsPairing m n ps) :
    ps.Nodup :=
  h.2.1.of_map Prod.fst

theorem IsPairing.subset_product {m n : ℕ} {ps : List (ℕ × ℕ)}
    (h : IsPairing m n ps) : ps ⊆ (List.range m ×ˢ List.range n) := by
  intro p hp
  rcases p with ⟨r, c⟩
  rw [List.mem_product]
  exact ⟨List.mem_range.2 (h.1 _ hp).1, List.mem_range.2 (h.1 _ hp).2⟩

theorem IsPairing.length_le {m n : ℕ} {ps : List (ℕ × ℕ)}
    (h : IsPairing m n ps) : ps.length ≤ min m n := by
  have hf : (ps.map Prod.fst) ⊆ List.range m := by
    intro r hr
    rcases List.mem_map.1 hr with ⟨p, hp, hpr⟩
    exact List.mem_range.2 (hpr ▸ (h.1 p hp).1)
  have hs : (ps.map Prod.snd) ⊆ List.range n := by
    intro c hc
    rcases List.mem_map.1 hc with ⟨p, hp, hpc⟩
    exact List.mem_range.2 (hpc ▸ (h.1 p hp).2)
  have h1 := (h.2.1.subperm hf).length_le
  have h2 := (h.2.2.subperm hs).length_le
  rw [List.length_map] at h1 h2
  rw [List.length_range] at h1 h2
  exact le_min h1 h2

theorem exists_perm_mem_completeMatchings {m n : ℕ} {ps : List (ℕ × ℕ)}
    (h : IsPairing m n ps) (hlen : ps.length = min m n) :
    ∃ qs ∈ completeMatchings m n, qs.Perm ps := by
  rcases h.nodup.subperm h.subset_product with ⟨qs, hqp, hsl⟩
  refine ⟨qs, mem_completeMatchings.2 ⟨hsl, ?_, ?_, ?_⟩, hqp⟩
  · rw [hqp.length_eq, hlen]
  · exact ((hqp.map Prod.fst).nodup_iff).2 h.2.1
  · exact ((hqp.map Prod.snd).nodup_iff).2 h.2.2

theorem matchingSum_of_perm (M : List (List ℚ)) {ps qs : List (ℕ × ℕ)}
    (h : ps.Perm qs) : matchingSum M ps = matchingSum M qs :=
  (h.map (entryAt M)).sum_eq

theorem exists_unused {l : List ℕ} {m : ℕ} (hlen : l.length < m) :
    ∃ r, r < m ∧ r ∉ l := by
  by_contra hcon
  push_neg at hcon
  have hsub : List.range m ⊆ l := by
    intro r hr
    exact hcon r (List.mem_range.1 hr)
  have := ((List.nodup_range m).subperm hsub).length_le
  simp at this
  omega

theorem pairing_extend {M : List (List ℚ)} {m n : ℕ}
    (hent : ∀ r c, r < m → c < n → 0 ≤ entryAt M (r, c)) :
    ∀ k (ps : List (ℕ × ℕ)), IsPairing m n ps → min m n - ps.length ≤ k →
      ∃ qs, IsPairing m n qs ∧ qs.length = min m n ∧
        matchingSum M ps ≤ matchingSum M qs := by
  intro k
  induction k with
  | zero =>
    intro ps hps hk
    have hle := hps.length_le
    have : ps.length = min m n := by omega
    exact ⟨ps, hps, this, le_refl _⟩
  | succ k ih =>
    intro ps hps hk
    by_cases hfull : ps.length = min m n
    · exact ⟨ps, hps, hfull, le_refl _⟩
    · have hlt : ps.length < min m n := lt_of_le_of_ne hps.length_le hfull
      have hrowlen : (ps.map Prod.fst).length < m := by
        rw [List.length_map]; omega
      have hcollen : (ps.map Prod.snd).length < n := by
        rw [List.length_map]; omega
      rcases exists_unused hrowlen with ⟨r, hr, hrn⟩
      rcases exists_unused hcollen with ⟨c, hc, hcn⟩
      have hps' : IsPairing m n ((r, c) :: ps) := by
        refine ⟨fun p hp => ?_, ?_, ?_⟩
        · rcases List.mem_cons.1 hp with hp | hp
          · subst hp; exact ⟨hr, hc⟩
          · exact hps.1 p hp
        · rw [List.map_cons]; exact List.nodup_cons.2 ⟨hrn, hps.2.1⟩
        · rw [List.map_cons]; exact List.nodup_cons.2 ⟨hcn, hps.2.2⟩
      have hmono : matchingSum M ps ≤ matchingSum M ((r, c) :: ps) := by
        simp only [matchingSum, List.map_cons, List.sum_cons]
        have := hent r c hr hc
        linarith
      rcases ih ((r, c) :: ps) hps' (by simp only [List.length_cons]; omega)
        with ⟨qs, h1, h2, h3⟩
      exact ⟨qs, h1, h2, le_trans hmono h3⟩

theorem completeMatchings_nonempty (m n : ℕ) :
    ∃ qs, qs ∈ completeMatchings m n := by
  have hdiag : IsPairing m n ((List.range (min m n)).map (fun i => (i, i))) := by
    refine ⟨fun p hp => ?_, ?_, ?_⟩
    · rcases List.mem_map.1 hp with ⟨i, hi, hip⟩
      have := List.mem_range.1 hi
      subst hip
      exact ⟨lt_of_lt_of_le this (min_le_left m n),
        lt_of_lt_of_le this (min_le_right m n)⟩
    · rw [List.map_map]
      have hcomp : (Prod.fst ∘ fun i : ℕ => (i, i)) = id := rfl
      rw [hcomp, List.map_id]
      exact List.nodup_range (min m n)
    · rw [List.map_map]
      have hcomp : (Prod.snd ∘ fun i : ℕ => (i, i)) = id := rfl
      rw [hcomp, List.map_id]
      exact List.nodup_range (min m n)
  rcases exists_perm_mem_completeMatchings hdiag (by simp) with ⟨qs, hqs, _⟩
  exact ⟨qs, hqs⟩

theorem getD_map_neg (row : List ℚ) (c : ℕ) :
    (row.map (fun x => -x)).getD c 0 = -(row.getD c 0) := by
  rcases lt_or_ge c row.length with hc | hc
  · rw [List.getD_eq_getElem _ _ (by simpa using hc), List.getD_eq_getElem _ _ hc,
      List.getElem_map]
  · rw [List.getD_eq_default _ _ (by simpa using hc), List.getD_eq_default _ _ hc]
    simp

theorem entryAt_negMatrix (M : List (List ℚ)) (p : ℕ × ℕ) :
    entryAt (negMatrix M) p = -entryAt M p := by
  rcases p with ⟨r, c⟩
  have hrow : (negMatrix M).getD r [] = (M.getD r []).map (fun x => -x) := by
    rcases lt_or_ge r M.length with hr | hr
    · rw [List.getD_eq_getElem _ _ (by simpa [negMatrix] using hr),
        List.getD_eq_getElem _ _ hr]
      simp [negMatrix]
    · rw [List.getD_eq_default _ _ (by simpa [negMatrix] using hr),
        List.getD_eq_default _ _ hr]
      simp
  rw [entryAt, entryAt, hrow, getD_map_neg]

theorem matchingSum_negMatrix (M : List (List ℚ)) (ps : List (ℕ × ℕ)) :
    matchingSum (negMatrix M) ps = -matchingSum M ps := by
  unfold matchingSum
  induction ps with
  | nil => simp
  | cons p ps ih =>
    rw [List.map_cons, List.map_cons, List.sum_cons, List.sum_cons, ih,
      entryAt_negMatrix]
    ring

theorem linear_sum_assignment_spec {C : List (List ℚ)} {m n : ℕ}
    (hm : C.length = m) (hrow : ∀ row ∈ C, row.length = n) (hm0 : m ≠ 0) :
    linear_sum_assignment C ∈ completeMatchings m n ∧
      ∀ qs ∈ completeMatchings m n,
        matchingSum C (linear_sum_assignment C) ≤ matchingSum C qs := by
  have hhead : (C.headD []).length = n := by
    cases C with
    | nil => simp at hm; omega
    | cons row rest => exact hrow row (List.mem_cons_self row rest)
  have hcm : completeMatchings C.length (C.headD []).length = completeMatchings m n := by
    rw [hm, hhead]
  rcases completeMatchings_nonempty m n with ⟨qs0, hqs0⟩
  cases hlist : completeMatchings m n with
  | nil => rw [hlist] at hqs0; simp at hqs0
  | cons c cs =>
    have hlsa : linear_sum_assignment C = minBy (matchingSum C) c cs := by
      rw [linear_sum_assignment, hcm, hlist]
    rw [hlsa]
    exact ⟨minBy_mem cs c, fun qs hqs => minBy_le cs c qs hqs⟩

/-! ### Score construction lemmas -/

theorem Score.make_ok {name : String} {x : ℚ} (h0 : 0 ≤ x) (h1 : x ≤ 1) :
    Score.make name (some x) = .ok ⟨name, some x⟩ := by
  rw [Score.make, if_neg]
  push_neg
  exact ⟨h0, h1⟩

theorem Score.make_ok_range {name : String} {s : Option ℚ} {sc : Score}
    (h : Score.make name s = .ok sc) :
    sc.score = none ∨ ∃ y, sc.score = some y ∧ 0 ≤ y ∧ y ≤ 1 := by
  rcases s with _ | x
  · rw [Score.make] at h
    injection h with h
    rw [← h]
    exact Or.inl rfl
  · rw [Score.make] at h
    by_cases hc : x < 0 ∨ 1 < x
    · rw [if_pos hc] at h
      exact absurd h (by simp)
    · rw [if_neg hc] at h
      injection h with h
      push_neg at hc
      exact Or.inr ⟨x, by rw [← h], hc.1, hc.2⟩

theorem clamp01_nonneg (x : ℚ) : 0 ≤ clamp01 x := by
  rw [clamp01]
  rcases le_total x 0 with h | h
  · rw [max_eq_right h]
    simp
  · rw [max_eq_left h]
    rcases le_total x 1 with h' | h'
    · rw [min_eq_left h']; exact le_trans h (le_refl x)
    · rw [min_eq_right h']; norm_num

theorem clamp01_le_one (x : ℚ) : clamp01 x ≤ 1 := by
  rw [clamp01]
  exact min_le_right _ _

/-! ### ListContains bridging lemmas -/

theorem simMatrix_length {α : Type} (pairwise : α → α → Option ℚ)
    (output expected : List α) :
    (ListContains.simMatrix pairwise output expected).length = output.length :=
  List.length_map _ _

theorem simMatrix_rows {α : Type} (pairwise : α → α → Option ℚ)
    (output expected : List α) :
    ∀ row ∈ ListContains.simMatrix pairwise output expected,
      row.length = expected.length := by
  intro row hrow
  rcases List.mem_map.1 hrow with ⟨o, _, ho⟩
  rw [← ho, List.length_map]

theorem simMatrix_entry {α : Type} (pairwise : α → α → Option ℚ)
    (output expected : List α) {r c : ℕ}
    (hr : r < output.length) (hc : c < expected.length) :
    entryAt (ListContains.simMatrix pairwise output expected) (r, c) =
      (pairwise output[r] expected[c]).getD 0 := by
  have hrowget : (ListContains.simMatrix pairwise output expected).getD r [] =
      expected.map (fun e => (pairwise output[r] e).getD 0) := by
    rw [List.getD_eq_getElem _ _ (by rw [simMatrix_length]; exact hr)]
    simp only [ListContains.simMatrix, List.getElem_map]
  show ((ListContains.simMatrix pairwise output expected).getD r []).getD c 0 = _
  rw [hrowget]
  rw [List.getD_eq_getElem _ _ (by rw [List.length_map]; exact hc)]
  rw [List.getElem_map]

theorem assignment_spec {α : Type} (pairwise : α → α → Option ℚ)
    (output expected : List α) (h1 : output ≠ []) :
    ListContains.assignment pairwise output expected ∈
        completeMatchings output.length expected.length ∧
      ∀ qs ∈ completeMatchings output.length expected.length,
        matchingSum (ListContains.simMatrix pairwise output expected) qs ≤
          matchingSum (ListContains.simMatrix pairwise output expected)
            (ListContains.assignment pairwise output expected) := by
  have hm : (negMatrix (ListContains.simMatrix pairwise output expected)).length
      = output.length := by
    rw [negMatrix, List.length_map, simMatrix_length]
  have hrow : ∀ row ∈ negMatrix (ListContains.simMatrix pairwise output expected),
      row.length = expected.length := by
    intro row hrow
    rcases List.mem_map.1 hrow with ⟨row', hrow', ho⟩
    rw [← ho, List.length_map]
    exact simMatrix_rows pairwise output expected row' hrow'
  have hm0 : output.length ≠ 0 := by
    intro h
    exact h1 (List.length_eq_zero.1 h)
  rcases linear_sum_assignment_spec hm hrow hm0 with ⟨hmem, hmin⟩
  refine ⟨hmem, fun qs hqs => ?_⟩
  have := hmin qs hqs
  rw [matchingSum_negMatrix, matchingSum_negMatrix] at this
  rw [ListContains.assignment]
  linarith

theorem grid_map_eq_simMatrix {α : Type} (pairwise : α → α → Option ℚ)
    (output expected : List α) :
    (output.map (fun o => expected.map (fun e => pairwise o e))).map
        (fun row => row.map (fun d => d.getD 0)) =
      ListContains.simMatrix pairwise output expected := by
  rw [List.map_map, ListContains.simMatrix]
  apply List.map_congr_left
  intro o _
  simp [List.map_map]

theorem neg_lowest_sum {α : Type} (pairwise : α → α → Option ℚ)
    (output expected : List α) (asn : List (ℕ × ℕ)) :
    ((asn.map (entryAt (negMatrix (ListContains.simMatrix pairwise output expected)))).map
        (fun x => -x)).sum =
      matchingSum (ListContains.simMatrix pairwise output expected) asn := by
  rw [List.map_map, matchingSum]
  apply congrArg
  apply List.map_congr_left
  intro p _
  simp [entryAt_negMatrix]

theorem ListContains.run_nonempty {α : Type} (ae : Bool)
    (pairwise : α → α → Option ℚ) (output expected : List α)
    (h1 : output ≠ []) (h2 : expected ≠ []) :
    ListContains.run true ae pairwise output (some expected) =
      Score.make "ListContains"
        (some (clamp01 (matchingSum (ListContains.simMatrix pairwise output expected)
              (ListContains.assignment pairwise output expected) /
            ((if ae = false then max output.length expected.length
              else expected.length : ℕ) : ℚ)))) := by
  have hlo : ¬output.length = 0 := fun h => h1 (List.length_eq_zero.1 h)
  have hle : ¬expected.length = 0 := fun h => h2 (List.length_eq_zero.1 h)
  rw [ListContains.run, ListContains.compute_score,
    if_neg (by exact fun h => hlo h.1),
    if_neg (by exact fun h => h.elim hlo hle),
    if_neg (by simp)]
  rw [grid_map_eq_simMatrix]
  have hasn : linear_sum_assignment (negMatrix (ListContains.simMatrix pairwise output expected)) =
      ListContains.assignment pairwise output expected := rfl
  have hassert : (ListContains.assignment pairwise output expected).length ≤
      (if ae = false then max output.length expected.length else expected.length) := by
    have hlen :=
      length_of_mem_completeMatchings (assignment_spec pairwise output expected h1).1
    rw [hlen]
    rcases ae with _ | _
    · rw [if_pos rfl]
      exact le_trans (min_le_left _ _) (le_max_left _ _)
    · rw [if_neg (by simp)]
      exact min_le_right _ _
  show (if (ListContains.assignment pairwise output expected).length ≤
        (if ae = false then max output.length expected.length else expected.length) then
      Score.make "ListContains"
        (some (min (max ((((ListContains.assignment pairwise output expected).map
              (entryAt (negMatrix (ListContains.simMatrix pairwise output expected)))).map
                (fun x => -x)).sum /
            ((if ae = false then max output.length expected.length
              else expected.length : ℕ) : ℚ)) 0) 1))
    else Except.error
      "assertion failed: there should be at most as many pairs as there are rows") = _
  rw [if_pos hassert, neg_lowest_sum, clamp01]

theorem range_some {sc : Score} {x : ℚ}
    (hr : sc.score = none ∨ ∃ y, sc.score = some y ∧ 0 ≤ y ∧ y ≤ 1)
    (hx : sc.score = some x) : 0 ≤ x ∧ x ≤ 1 := by
  rcases hr with hn | ⟨y, hy, h0, h1⟩
  · rw [hx] at hn
    exact absurd hn (by simp)
  · rw [hx] at hy
    injection hy with hy
    rw [hy]
    exact ⟨h0, h1⟩

theorem ite_make_ok {c : Prop} [Decidable c] {n : String} {s : Option ℚ}
    {msg : String} {sc : Score}
    (h : (if c then Score.make n s else Except.error msg) = .ok sc) :
    Score.make n s = .ok sc := by
  by_cases hc : c
  · rw [if_pos hc] at h
    exact h
  · rw [if_neg hc] at h
    exact absurd h (by simp)

theorem compute_score_ok_range {α : Type} {scipy ae : Bool}
    {outputs expecteds : List α} {sims : List (List (Option ℚ))} {sc : Score}
    (h : ListContains.compute_score scipy ae outputs expecteds sims = .ok sc) :
    ∀ x, sc.score = some x → 0 ≤ x ∧ x ≤ 1 := by
  intro x hx
  rw [ListContains.compute_score] at h
  by_cases c1 : outputs.length = 0 ∧ expecteds.length = 0
  · rw [if_pos c1] at h
    exact range_some (Score.make_ok_range h) hx
  · rw [if_neg c1] at h
    by_cases c2 : outputs.length = 0 ∨ expecteds.length = 0
    · rw [if_pos c2] at h
      exact range_some (Score.make_ok_range h) hx
    · rw [if_neg c2] at h
      by_cases c3 : scipy = false
      · rw [if_pos c3] at h
        exact absurd h (by simp)
      · rw [if_neg c3] at h
        exact range_some (Score.make_ok_range (ite_make_ok h)) hx

/-! ### Claim theorems -/

/-- C1: on a call of the list-matching engine with nonempty output and
expected lists (and the solver dependency available), the returned score is
`clamp(S/D, 0, 1)` where the similarity matrix replaces a null pairwise
score by `0`, `S` is the total similarity of the assignment chosen by the
solver, and `D` is `len(expected)` when `allow_extra_entities` is true and
`max(len(output), len(expected))` otherwise. -/
theorem C1_score_formula {α : Type} (ae : Bool) (pairwise : α → α → Option ℚ)
    (output expected : List α) (h1 : output ≠ []) (h2 : expected ≠ []) :
    ListContains.run true ae pairwise output (some expected) =
      .ok ⟨"ListContains",
        some (clamp01 (matchingSum (ListContains.simMatrix pairwise output expected)
            (ListContains.assignment pairwise output expected) /
          ((if ae then expected.length
            else max output.length expected.length : ℕ) : ℚ)))⟩ := by
  rw [ListContains.run_nonempty ae pairwise output expected h1 h2]
  have hden : (if ae = false then max output.length expected.length
      else expected.length) = (if ae then expected.length
      else max output.length expected.length) := by
    rcases ae with _ | _ <;> simp
  rw [hden]
  exact Score.make_ok (clamp01_nonneg _) (clamp01_le_one _)

/-- C2: the assignment step of the list-matching engine (over the
similarity matrix of a call whose pairwise scores are valid, i.e. null or in
the unit interval) returns a one-to-one pairing of at most
`min(len(output), len(expected))` pairs whose total similarity is maximal
among all one-to-one pairings. -/
theorem C2_assignment_optimal {α : Type} (pairwise : α → α → Option ℚ)
    (output expected : List α) (h1 : output ≠ []) (_h2 : expected ≠ [])
    (hval : ∀ o e x, pairwise o e = some x → 0 ≤ x ∧ x ≤ 1) :
    IsPairing output.length expected.length
        (ListContains.assignment pairwise output expected) ∧
      (ListContains.assignment pairwise output expected).length ≤
        min output.length expected.length ∧
      ∀ ps, IsPairing output.length expected.length ps →
        matchingSum (ListContains.simMatrix pairwise output expected) ps ≤
          matchingSum (ListContains.simMatrix pairwise output expected)
            (ListContains.assignment pairwise output expected) := by
  rcases assignment_spec pairwise output expected h1 with ⟨hmem, hmax⟩
  refine ⟨isPairing_of_mem_completeMatchings hmem,
    le_of_eq (length_of_mem_completeMatchings hmem), fun ps hps => ?_⟩
  have hent : ∀ r c, r < output.length → c < expected.length →
      0 ≤ entryAt (ListContains.simMatrix pairwise output expected) (r, c) := by
    intro r c hr hc
    rw [simMatrix_entry pairwise output expected hr hc]
    cases hpw : pairwise output[r] expected[c] with
    | none => simp
    | some y =>
      have := (hval _ _ y hpw).1
      simpa using this
  rcases pairing_extend hent (min output.length expected.length) ps hps
      (Nat.sub_le _ _) with ⟨qs', hqs', hlen', hle⟩
  rcases exists_perm_mem_completeMatchings hqs' hlen' with ⟨qs, hqsmem, hperm⟩
  calc matchingSum (ListContains.simMatrix pairwise output expected) ps
      ≤ matchingSum (ListContains.simMatrix pairwise output expected) qs' := hle
    _ = matchingSum (ListContains.simMatrix pairwise output expected) qs :=
        (matchingSum_of_perm _ hperm).symm
    _ ≤ _ := hmax qs hqsmem

/-- C3 (amended): a null pairwise score is replaced by `0` when entered
into the similarity matrix, but entries are not otherwise clamped (an
out-of-range value from a nonconforming pairwise scorer enters the matrix
unchanged); the final aggregate score of every successful call is clamped
to the unit interval. -/
theorem C3_no_input_clamp {α : Type} (pairwise : α → α → Option ℚ)
    (output expected : List α) :
    (∀ r c, (hr : r < output.length) → (hc : c < expected.length) →
        entryAt (ListContains.simMatrix pairwise output expected) (r, c) =
          (pairwise output[r] expected[c]).getD 0) ∧
      ∀ scipy ae sc, ListContains.run scipy ae pairwise output (some expected) = .ok sc →
        ∀ x, sc.score = some x → 0 ≤ x ∧ x ≤ 1 := by
  constructor
  · intro r c hr hc
    exact simMatrix_entry pairwise output expected hr hc
  · intro scipy ae sc h
    rw [ListContains.run] at h
    exact compute_score_ok_range h

/-- C4: the list-matching engine scores `1` when both lists are empty and a
definite numeric `0` (not null) when exactly one of the two lists is empty,
in every configuration and independently of the solver dependency. -/
theorem C4_empty_lists {α : Type} (scipy ae : Bool) (pairwise : α → α → Option ℚ)
    (output expected : List α) :
    (output = [] → expected = [] →
        ListContains.run scipy ae pairwise output (some expected) =
          .ok ⟨"ListContains", some 1⟩) ∧
      (output = [] → expected ≠ [] →
        ListContains.run scipy ae pairwise output (some expected) =
          .ok ⟨"ListContains", some 0⟩) ∧
      (output ≠ [] → expected = [] →
        ListContains.run scipy ae pairwise output (some expected) =
          .ok ⟨"ListContains", some 0⟩) := by
  refine ⟨fun ho he => ?_, fun ho he => ?_, fun ho he => ?_⟩
  · subst ho; subst he
    rw [ListContains.run, ListContains.compute_score, if_pos ⟨rfl, rfl⟩]
    exact Score.make_ok (by norm_num) (by norm_num)
  · subst ho
    have he' : ¬expected.length = 0 := fun h => he (List.length_eq_zero.1 h)
    rw [ListContains.run, ListContains.compute_score,
      if_neg (fun h => he' h.2),
      if_pos (show List.length ([] : List α) = 0 ∨ expected.length = 0 from Or.inl rfl)]
    exact Score.make_ok (by norm_num) (by norm_num)
  · subst he
    have ho' : ¬output.length = 0 := fun h => ho (List.length_eq_zero.1 h)
    rw [ListContains.run, ListContains.compute_score,
      if_neg (fun h => ho' h.1),
      if_pos (show output.length = 0 ∨ List.length ([] : List α) = 0 from Or.inr rfl)]
    exact Score.make_ok (by norm_num) (by norm_num)

/-- C6: constructing a Score with a non-null value outside the unit
interval fails with a validation error; a null score never fails
validation; and every successfully constructed Score has a score that is
null or in the unit interval. -/
theorem C6_score_validation (name : String) (x : ℚ) (s : Option ℚ) (sc : Score) :
    ((x < 0 ∨ 1 < x) → ∃ msg, Score.make name (some x) = .error msg) ∧
      Score.make name none = .ok ⟨name, none⟩ ∧
      (Score.make name s = .ok sc →
        sc.score = none ∨ ∃ y, sc.score = some y ∧ 0 ≤ y ∧ y ≤ 1) := by
  refine ⟨fun h => ?_, rfl, fun h => Score.make_ok_range h⟩
  rw [Score.make, if_pos h]
  exact ⟨_, rfl⟩

/-- C7: when the solver dependency is unavailable, a call of the
list-matching engine that needs it (both lists nonempty) fails with an
error carrying the actionable install hint, and never returns a score. -/
theorem C7_missing_dependency {α : Type} (ae : Bool) (pairwise : α → α → Option ℚ)
    (output expected : List α) (h1 : output ≠ []) (h2 : expected ≠ []) :
    ListContains.run false ae pairwise output (some expected) = .error scipyHint ∧
      scipyHint =
        "ListContains requires the scipy extension, which you can install with pip install autoevals[scipy]" := by
  have hlo : ¬output.length = 0 := fun h => h1 (List.length_eq_zero.1 h)
  have hle : ¬expected.length = 0 := fun h => h2 (List.length_eq_zero.1 h)
  refine ⟨?_, rfl⟩
  rw [ListContains.run, ListContains.compute_score,
    if_neg (fun h => hlo h.1), if_neg (fun h => h.elim hlo hle), if_pos rfl]

/-- C10: for NumericDiff, whenever exactly one of output and expected is
zero, the returned score is exactly `0`; among zero-involving pairs, only
output and expected both zero yields score `1`. -/
theorem C10_numericdiff_zero (output expected : ℚ) (h : output = 0 ∨ expected = 0) :
    (¬(output = 0 ∧ expected = 0) →
        NumericDiff.run output (some expected) = .ok ⟨"NumericDiff", some 0⟩) ∧
      (NumericDiff.run output (some expected) = .ok ⟨"NumericDiff", some 1⟩ ↔
        output = 0 ∧ expected = 0) := by
  have hscore : ¬(output = 0 ∧ expected = 0) → NumericDiff.score output expected = 0 := by
    intro hne
    rcases h with ho | he
    · have hexp : expected ≠ 0 := fun hh => hne ⟨ho, hh⟩
      rw [NumericDiff.score, if_neg (fun hh => hexp hh.1), ho]
      rw [sub_zero, abs_zero, add_zero, div_self (abs_ne_zero.2 hexp)]
      ring
    · have hout : output ≠ 0 := fun hh => hne ⟨hh, he⟩
      rw [NumericDiff.score, if_neg (fun hh => hout hh.2), he]
      rw [zero_sub, abs_neg, abs_zero, zero_add, div_self (abs_ne_zero.2 hout)]
      ring
  constructor
  · intro hne
    rw [NumericDiff.run, hscore hne]
    exact Score.make_ok (by norm_num) (by norm_num)
  · constructor
    · intro hrun
      by_contra hne
      rw [NumericDiff.run, hscore hne] at hrun
      rw [Score.make_ok (by norm_num) (by norm_num)] at hrun
      injection hrun with hrun
      have hcontra : (some (0 : ℚ) : Option ℚ) = some 1 := congrArg Score.score hrun
      have h01 : (0 : ℚ) = 1 := by injection hcontra
      norm_num at h01
    · intro hb
      rw [NumericDiff.run, NumericDiff.score, if_pos ⟨hb.2, hb.1⟩]
      exact Score.make_ok (by norm_num) (by norm_num)

theorem diag_pairing {k m n : ℕ} (hm : k ≤ m) (hn : k ≤ n) :
    IsPairing m n ((List.range k).map (fun i => (i, i))) := by
  refine ⟨fun p hp => ?_, ?_, ?_⟩
  · rcases List.mem_map.1 hp with ⟨i, hi, hip⟩
    have hik := List.mem_range.1 hi
    rw [← hip]
    exact ⟨lt_of_lt_of_le hik hm, lt_of_lt_of_le hik hn⟩
  · rw [List.map_map]
    have hcomp : (Prod.fst ∘ fun i : ℕ => (i, i)) = id := rfl
    rw [hcomp, List.map_id]
    exact List.nodup_range k
  · rw [List.map_map]
    have hcomp : (Prod.snd ∘ fun i : ℕ => (i, i)) = id := rfl
    rw [hcomp, List.map_id]
    exact List.nodup_range k

theorem sum_ones (k : ℕ) : ((List.range k).map (fun _ => (1 : ℚ))).sum = k := by
  induction k with
  | zero => simp
  | succ k ih => simp [List.range_succ, ih]

theorem clamp01_of_one_le {x : ℚ} (h : 1 ≤ x) : clamp01 x = 1 := by
  rw [clamp01, max_eq_left (le_trans zero_le_one h), min_eq_right h]

/-- C5: the list-matching engine on a nonempty list against itself, with an
exact-match pairwise scorer, pairwise-distinct elements and
`allow_extra_entities = false`, returns score exactly `1`. -/
theorem C5_identity {α : Type} (norm : α → String) (X : List α) (hne : X ≠ [])
    (_hnd : (X.map norm).Nodup) :
    ListContains.run true false (fun o e => some (ExactMatch.score norm o e)) X
        (some X) = .ok ⟨"ListContains", some 1⟩ := by
  set pw : α → α → Option ℚ := fun o e => some (ExactMatch.score norm o e) with hpw
  have hdiagsum :
      matchingSum (ListContains.simMatrix pw X X)
        ((List.range X.length).map (fun i => (i, i))) = X.length := by
    rw [matchingSum, List.map_map]
    have hone : ∀ i ∈ List.range X.length,
        (entryAt (ListContains.simMatrix pw X X) ∘ fun i => (i, i)) i = (1 : ℚ) := by
      intro i hi
      have hi' := List.mem_range.1 hi
      show entryAt (ListContains.simMatrix pw X X) (i, i) = 1
      rw [simMatrix_entry pw X X hi' hi']
      show (some (ExactMatch.score norm X[i] X[i])).getD 0 = 1
      rw [Option.getD_some, ExactMatch.score, if_pos rfl]
    rw [List.map_congr_left hone, sum_ones]
  rcases assignment_spec pw X X hne with ⟨hmem, hmax⟩
  rcases exists_perm_mem_completeMatchings
      (diag_pairing (le_refl X.length) (le_refl X.length)) (by simp)
    with ⟨qs, hqs, hperm⟩
  have hbig : (X.length : ℚ) ≤
      matchingSum (ListContains.simMatrix pw X X)
        (ListContains.assignment pw X X) :=
    calc (X.length : ℚ)
        = matchingSum (ListContains.simMatrix pw X X)
            ((List.range X.length).map (fun i => (i, i))) := hdiagsum.symm
      _ = matchingSum (ListContains.simMatrix pw X X) qs :=
          (matchingSum_of_perm _ hperm).symm
      _ ≤ _ := hmax qs hqs
  have hn0 : 0 < X.length := List.length_pos.2 hne
  rw [ListContains.run_nonempty false pw X X hne hne]
  have hden : (if false = false then max X.length X.length else X.length) =
      X.length := by
    rw [if_pos rfl, max_self]
  rw [hden]
  have hone_le : (1 : ℚ) ≤
      matchingSum (ListContains.simMatrix pw X X) (ListContains.assignment pw X X) /
        (X.length : ℚ) := by
    rw [le_div_iff₀ (by exact_mod_cast hn0), one_mul]
    exact hbig
  rw [clamp01_of_one_le hone_le]
  exact Score.make_ok (by norm_num) (by norm_num)

/-! ### Concrete evaluation of the solver on two-by-two matrices -/

theorem completeMatchings_two_two :
    completeMatchings 2 2 = [[(0, 1), (1, 0)], [(0, 0), (1, 1)]] := by decide

theorem matchingSum_pair (M : List (List ℚ)) (p q : ℕ × ℕ) :
    matchingSum M [p, q] = entryAt M p + entryAt M q := by
  simp [matchingSum]

theorem lsa_two_two (a b c d : ℚ) :
    linear_sum_assignment [[a, b], [c, d]] =
      if a + d < b + c then [(0, 0), (1, 1)] else [(0, 1), (1, 0)] := by
  have hlen : ([[a, b], [c, d]] : List (List ℚ)).length = 2 := rfl
  have hhead : (([[a, b], [c, d]] : List (List ℚ)).headD []).length = 2 := rfl
  rw [linear_sum_assignment, hlen, hhead, completeMatchings_two_two]
  show minBy (matchingSum [[a, b], [c, d]]) [(0, 1), (1, 0)] [[(0, 0), (1, 1)]] = _
  rw [minBy, minBy, minBy]
  have h1 : matchingSum [[a, b], [c, d]] [(0, 0), (1, 1)] = a + d := by
    rw [matchingSum_pair]
    simp [entryAt, List.getD]
  have h2 : matchingSum [[a, b], [c, d]] [(0, 1), (1, 0)] = b + c := by
    rw [matchingSum_pair]
    simp [entryAt, List.getD]
  rw [h1, h2]

theorem cex_simMatrix :
    ListContains.simMatrix cexPairwise ["a", "b"] ["x", "y"] =
      [[3 / 2, 0], [0, 0]] := by
  simp [ListContains.simMatrix, cexPairwise]

theorem cex_negMatrix :
    negMatrix [[(3 : ℚ) / 2, 0], [0, 0]] = [[-(3 / 2), 0], [0, 0]] := by
  norm_num [negMatrix]

theorem cex_assignment :
    ListContains.assignment cexPairwise ["a", "b"] ["x", "y"] = [(0, 0), (1, 1)] := by
  rw [ListContains.assignment, cex_simMatrix, cex_negMatrix, lsa_two_two,
    if_pos (by norm_num)]

/-- C3 (counterexample): with a nonconforming pairwise scorer reporting
similarity `3/2` for one pair, the source engine scores `3/4` on a
two-against-two call, while the behavior claim C3 describes (the entry
clamped to `1` before solving) would score `1/2`: similarities are not
clamped on input. -/
theorem C3_counterexample :
    ListContains.run true false cexPairwise ["a", "b"] (some ["x", "y"]) =
        .ok ⟨"ListContains", some (3 / 4)⟩ ∧
      ListContains.runClamped true false cexPairwise ["a", "b"] ["x", "y"] =
        .ok ⟨"ListContains", some (1 / 2)⟩ := by
  constructor
  · rw [ListContains.run_nonempty false cexPairwise ["a", "b"] ["x", "y"]
      (by simp) (by simp)]
    rw [cex_assignment, cex_simMatrix]
    have hsum : matchingSum [[(3 : ℚ) / 2, 0], [0, 0]] [(0, 0), (1, 1)] = 3 / 2 := by
      rw [matchingSum_pair]
      simp [entryAt, List.getD]
    rw [hsum]
    have hden : (((if false = false then
        max (List.length (["a", "b"] : List String))
          (List.length (["x", "y"] : List String))
        else List.length (["x", "y"] : List String)) : ℕ) : ℚ) = 2 := by norm_num
    rw [hden]
    have hval : clamp01 (3 / 2 / (2 : ℚ)) = 3 / 4 := by
      rw [clamp01, max_eq_left (by norm_num), min_eq_left (by norm_num)]
      norm_num
    rw [hval]
    exact Score.make_ok (by norm_num) (by norm_num)
  · have hclamped : ListContains.simMatrixClamped cexPairwise ["a", "b"] ["x", "y"] =
        [[1, 0], [0, 0]] := by
      simp [ListContains.simMatrixClamped, cexPairwise, clamp01]
      norm_num
    have hneg : negMatrix [[(1 : ℚ), 0], [0, 0]] = [[-1, 0], [0, 0]] := by
      norm_num [negMatrix]
    rw [ListContains.runClamped, if_neg (by simp), if_neg (by simp), if_neg (by simp),
      hclamped]
    show Score.make "ListContains"
        (some (clamp01 ((List.map (fun x => -x)
            (List.map (entryAt (negMatrix [[(1 : ℚ), 0], [0, 0]]))
              (linear_sum_assignment (negMatrix [[(1 : ℚ), 0], [0, 0]])))).sum /
          (((if false = false then
              max (List.length (["a", "b"] : List String))
                (List.length (["x", "y"] : List String))
            else List.length (["x", "y"] : List String)) : ℕ) : ℚ)))) = _
    rw [hneg, lsa_two_two, if_pos (by norm_num)]
    have hmap : (List.map (fun x => -x)
        (List.map (entryAt [[(-1 : ℚ), 0], [0, 0]]) [(0, 0), (1, 1)])).sum = 1 := by
      simp only [entryAt, List.map_cons, List.map_nil, List.sum_cons, List.sum_nil]
      norm_num [List.getD]
    rw [hmap]
    have hden : (((if false = false then
        max (List.length (["a", "b"] : List String))
          (List.length (["x", "y"] : List String))
        else List.length (["x", "y"] : List String)) : ℕ) : ℚ) = 2 := by norm_num
    rw [hden]
    have hval : clamp01 ((1 : ℚ) / 2) = 1 / 2 := by
      rw [clamp01, max_eq_left (by norm_num), min_eq_left (by norm_num)]
    rw [hval]
    exact Score.make_ok (by norm_num) (by norm_num)

/-! ### Concrete JSONDiff evaluations -/

theorem numericDiff_one_one : NumericDiff.score 1 1 = 1 := by
  rw [NumericDiff.score, if_neg (by norm_num), sub_self, abs_zero, abs_one]
  norm_num

theorem numericDiff_one_two : NumericDiff.score 1 2 = 2 / 3 := by
  rw [NumericDiff.score, if_neg (by norm_num)]
  have h1 : |(2 : ℚ) - 1| = 1 := by
    rw [show (2 : ℚ) - 1 = 1 by norm_num, abs_one]
  rw [h1, abs_two, abs_one]
  norm_num

/-- C8: JSONDiff scores `1` on a pair of identical one-key objects, and
`2/3` on `(a ↦ 1)` against `(a ↦ 2)` under the default relative-difference
number scorer: the single shared key scores `1 - |1-2|/(|1|+|2|) = 2/3` and
the dict score averages over that one key. -/
theorem C8_jsondiff_values :
    JSONDiff.run 2 (.obj [("a", .num 1)]) (.obj [("a", .num 1)]) =
        .ok ⟨"JSONDiff", some 1⟩ ∧
      JSONDiff.run 2 (.obj [("a", .num 1)]) (.obj [("a", .num 2)]) =
        .ok ⟨"JSONDiff", some (2 / 3)⟩ := by
  have hu1 : unionKeys [("a", JsonVal.num 1)] [("a", JsonVal.num 1)] = ["a"] := rfl
  have hu2 : unionKeys [("a", JsonVal.num 1)] [("a", JsonVal.num 2)] = ["a"] := rfl
  have hg1 : getKey [("a", JsonVal.num 1)] "a" = JsonVal.num 1 := rfl
  have hg2 : getKey [("a", JsonVal.num 2)] "a" = JsonVal.num 2 := rfl
  have hd1 : JSONDiff.json_diff 2 (.obj [("a", .num 1)]) (.obj [("a", .num 1)]) =
      some 1 := by
    simp [JSONDiff.json_diff, hu1, hg1, numericDiff_one_one]
  have hd2 : JSONDiff.json_diff 2 (.obj [("a", .num 1)]) (.obj [("a", .num 2)]) =
      some (2 / 3) := by
    simp [JSONDiff.json_diff, hu2, hg1, hg2, numericDiff_one_two]
  constructor
  · rw [JSONDiff.run, hd1]
    exact Score.make_ok (by norm_num) (by norm_num)
  · rw [JSONDiff.run, hd2]
    exact Score.make_ok (by norm_num) (by norm_num)

/-- C9: JSONDiff on an empty list against an empty dict reaches the
canonicalization fallback, which serializes the two sides to the compact
strings of the two empty containers and delegates to the string scorer,
yielding the defined score `0` rather than an error. -/
theorem C9_jsondiff_type_mismatch :
    JsonVal.dumps (.arr []) = "[]" ∧
      JsonVal.dumps (.obj []) = "\x7b\x7d" ∧
      JSONDiff.run 1 (.arr []) (.obj []) = .ok ⟨"JSONDiff", some 0⟩ := by
  have hdump1 : JsonVal.dumps (.arr []) = "[]" := rfl
  have hdump2 : JsonVal.dumps (.obj []) = "\x7b\x7d" := rfl
  have hlev : levenshtein Levenshtein.defaultCost "[]".toList "\x7b\x7d".toList = 2 := by
    decide
  have hL1 : ("[]" : String).length = 2 := rfl
  have hL2 : ("\x7b\x7d" : String).length = 2 := rfl
  have hscore : LevenshteinScorer.score "[]" "\x7b\x7d" = 0 := by
    rw [LevenshteinScorer.score]
    simp [hlev, hL1, hL2]
  have hjd : JSONDiff.json_diff 1 (.arr []) (.obj []) =
      some (LevenshteinScorer.score "[]" "\x7b\x7d") := by
    simp [JSONDiff.json_diff, hdump1, hdump2]
  refine ⟨hdump1, hdump2, ?_⟩
  rw [JSONDiff.run, hjd, hscore]
  exact Score.make_ok (by norm_num) (by norm_num)

/-! ### Witnesses -/

/-- A trivial conforming pairwise scorer used as a concrete input by the
witnesses below. -/
def onesPairwise : String → String → Option ℚ := fun _ _ => some 1

theorem C1_score_formula_witness :
    ListContains.run true false onesPairwise ["a"] (some ["b"]) =
      .ok ⟨"ListContains",
        some (clamp01 (matchingSum (ListContains.simMatrix onesPairwise ["a"] ["b"])
            (ListContains.assignment onesPairwise ["a"] ["b"]) /
          ((if false then (["b"] : List String).length
            else max (["a"] : List String).length (["b"] : List String).length : ℕ) :
            ℚ)))⟩ :=
  C1_score_formula false onesPairwise ["a"] ["b"] (by simp) (by simp)

theorem C2_assignment_optimal_witness :
    IsPairing (["a"] : List String).length (["b"] : List String).length
        (ListContains.assignment onesPairwise ["a"] ["b"]) ∧
      (ListContains.assignment onesPairwise ["a"] ["b"]).length ≤
        min (["a"] : List String).length (["b"] : List String).length ∧
      ∀ ps, IsPairing (["a"] : List String).length (["b"] : List String).length ps →
        matchingSum (ListContains.simMatrix onesPairwise ["a"] ["b"]) ps ≤
          matchingSum (ListContains.simMatrix onesPairwise ["a"] ["b"])
            (ListContains.assignment onesPairwise ["a"] ["b"]) :=
  C2_assignment_optimal onesPairwise ["a"] ["b"] (by simp) (by simp)
    (fun o e x h => by
      simp only [onesPairwise, Option.some.injEq] at h
      rw [← h]
      norm_num)

theorem C3_no_input_clamp_witness :
    entryAt (ListContains.simMatrix cexPairwise ["a", "b"] ["x", "y"]) (0, 0) =
        (cexPairwise "a" "x").getD 0 ∧
      (0 : ℚ) ≤ 1 ∧ (1 : ℚ) ≤ 1 := by
  refine ⟨(C3_no_input_clamp cexPairwise ["a", "b"] ["x", "y"]).1 0 0
    (by norm_num) (by norm_num), ?_⟩
  have hrun : ListContains.run true false cexPairwise []
      (some ([] : List String)) = .ok ⟨"ListContains", some 1⟩ := rfl
  exact (C3_no_input_clamp cexPairwise [] []).2 true false
    ⟨"ListContains", some 1⟩ hrun 1 rfl

theorem C4_empty_lists_witness :
    ListContains.run true false onesPairwise [] (some ([] : List String)) =
        .ok ⟨"ListContains", some 1⟩ ∧
      ListContains.run true false onesPairwise [] (some ["a"]) =
        .ok ⟨"ListContains", some 0⟩ ∧
      ListContains.run true false onesPairwise ["a"] (some []) =
        .ok ⟨"ListContains", some 0⟩ :=
  ⟨(C4_empty_lists true false onesPairwise [] []).1 rfl rfl,
    (C4_empty_lists true false onesPairwise [] ["a"]).2.1 rfl (by simp),
    (C4_empty_lists true false onesPairwise ["a"] []).2.2 (by simp) rfl⟩

theorem C5_identity_witness :
    ListContains.run true false (fun o e => some (ExactMatch.score id o e))
        ["a", "b"] (some ["a", "b"]) = .ok ⟨"ListContains", some 1⟩ :=
  C5_identity id ["a", "b"] (by simp) (by simp)

theorem C6_score_validation_witness :
    (∃ msg, Score.make "m" (some 2) = .error msg) ∧
      Score.make "m" none = .ok ⟨"m", none⟩ ∧
      ((⟨"m", some (1 / 2)⟩ : Score).score = none ∨
        ∃ y, (⟨"m", some (1 / 2)⟩ : Score).score = some y ∧ 0 ≤ y ∧ y ≤ 1) := by
  obtain ⟨h1, h2, h3⟩ := C6_score_validation "m" 2 (some (1 / 2)) ⟨"m", some (1 / 2)⟩
  exact ⟨h1 (by norm_num), h2, h3 (Score.make_ok (by norm_num) (by norm_num))⟩

theorem C7_missing_dependency_witness :
    ListContains.run false false onesPairwise ["a"] (some ["b"]) = .error scipyHint ∧
      scipyHint =
        "ListContains requires the scipy extension, which you can install with pip install autoevals[scipy]" :=
  C7_missing_dependency false onesPairwise ["a"] ["b"] (by simp) (by simp)

theorem C10_numericdiff_zero_witness :
    NumericDiff.run 5 (some 0) = .ok ⟨"NumericDiff", some 0⟩ :=
  (C10_numericdiff_zero 5 0 (Or.inr rfl)).1 (by norm_num)

end Autoevals
